import Mathlib

/-!
Verification development for the html2md converter (single-header C++,
`src/html2md.hpp`, richest variant: the `Converter` class with the tag-handler
registry, ancestor stack and markdown normalizer).

Strings are modelled as `List Char`; C++ `u_int16_t` counters are `Nat` taken
mod 65536 at each update; `size_t` arithmetic is `Nat` taken mod 2^64 where the
source can wrap.  Out-of-range reads of `std::string::operator[]` (which the
source performs on empty buffers) are modelled as yielding the null character.
-/

set_option maxRecDepth 100000

namespace Html2md

/-- The null character, used to model reads the C++ source leaves undefined
(uninitialized fields, out-of-range `operator[]`). -/
def nullCh : Char := Char.ofNat 0

/-- The single-quote character (written via its code point). -/
def q39 : Char := Char.ofNat 39

/-- 2^64, the modulus of C++ `size_t` arithmetic. -/
def two64 : Nat := 18446744073709551616

/-- 2^16, the modulus of C++ `u_int16_t` arithmetic. -/
def two16 : Nat := 65536

/-- Increment of a `u_int16_t` counter. -/
def inc16 (n : Nat) : Nat := (n + 1) % two16

/-- Decrement of a `u_int16_t` counter (wraps on 0). -/
def dec16 (n : Nat) : Nat := (n + 65535) % two16

/-- C `isspace` in the default locale. -/
def isSpaceC (c : Char) : Bool :=
  c = ' ' || c = '\t' || c = '\n' || c = Char.ofNat 11 || c = Char.ofNat 12 || c = '\r'

/-- C `isblank` in the default locale. -/
def isBlankC (c : Char) : Bool := c = ' ' || c = '\t'

/-- Does `pat` occur at the head of `l`? (prefix test used by the scanning
utilities). -/
def leadsList : List Char → List Char → Bool
  | [], _ => true
  | _ :: _, [] => false
  | p :: ps, c :: cs => p = c && leadsList ps cs

/-- Does `pat` occur anywhere in `l`? -/
def occursIn (pat : List Char) : List Char → Bool
  | [] => leadsList pat []
  | c :: cs => leadsList pat (c :: cs) || occursIn pat cs

/-- First index `≥ i` (counting from the start of the scanned list) at which
`pat` occurs. -/
def findSubAux (pat : List Char) : List Char → Nat → Option Nat
  | [], i => if pat = [] then some i else none
  | c :: cs, i => if leadsList pat (c :: cs) then some i else findSubAux pat cs (i + 1)

/-- `std::string::find(pat, start)`: first occurrence of `pat` in `hay` at
position `≥ start`, as an absolute index. -/
def findSub (hay pat : List Char) (start : Nat) : Option Nat :=
  match findSubAux pat (hay.drop start) 0 with
  | some j => some (start + j)
  | none => none

/-- `std::string::find(ch, start)`. -/
def findCharFrom (hay : List Char) (ch : Char) (start : Nat) : Option Nat :=
  findSub hay [ch] start

/-- `ReplaceAll` scanning loop: replace every occurrence of `pat` left to
right, continuing the scan after each inserted replacement (as the source does
via `find(needle, pos + replacement.size())`).  Each step consumes at least
one character of the scanned text, so fuel equal to its length suffices. -/
def replaceAllFuel (pat repl : List Char) : Nat → List Char → List Char
  | 0, l => l
  | _, [] => []
  | fuel + 1, c :: cs =>
    if leadsList pat (c :: cs) then
      repl ++ replaceAllFuel pat repl fuel (List.drop (pat.length - 1) cs)
    else
      c :: replaceAllFuel pat repl fuel cs

/-- `ReplaceAll(haystack, needle, replacement)` (the source never calls it with
an empty needle, on which the C++ loop would not terminate). -/
def ReplaceAll (hay pat repl : List Char) : List Char :=
  if pat = [] then hay else replaceAllFuel pat repl hay.length hay

/-- `Explode` (= repeated `std::getline`) accumulator: `tok` holds the current
token reversed.  A trailing delimiter produces no final empty token, matching
`getline` hitting end-of-stream. -/
def explodeAux (d : Char) : List Char → List Char → List (List Char)
  | [], tok => [tok.reverse]
  | c :: cs, tok =>
    if c = d then
      match cs with
      | [] => [tok.reverse]
      | _ :: _ => tok.reverse :: explodeAux d cs []
    else
      explodeAux d cs (c :: tok)

/-- `Explode(str, delimiter)`: split by delimiter via `std::getline`; the empty
string yields no tokens. -/
def Explode (d : Char) : List Char → List (List Char)
  | [] => []
  | c :: cs => explodeAux d (c :: cs) []

/-- Drop the trailing run of characters satisfying `p` (renders the `RTrim`
reverse-iterator erase). -/
def dropTrailP (p : Char → Bool) : List Char → List Char
  | [] => []
  | c :: cs =>
    let r := dropTrailP p cs
    if r = [] ∧ p c = true then [] else c :: r

/-- `LTrim`: drop the leading run of whitespace. -/
def LTrim (l : List Char) : List Char := l.dropWhile isSpaceC

/-- `RTrim` with default arguments: drop the trailing run of whitespace. -/
def RTrim (l : List Char) : List Char := dropTrailP isSpaceC l

/-- `Trim`: `LTrim` then `RTrim`, as in the source. -/
def TrimS (l : List Char) : List Char := RTrim (LTrim l)

/-- The line-reassembly loop body of `TidyAllLines`: each kept line is emitted
followed by `'\n'`; a blank (after trimming) line is kept only while fewer than
two consecutive blanks have been kept. -/
def tidyGo : List (List Char) → Nat → List Char
  | [], _ => []
  | line :: rest, k =>
    let t := TrimS line
    if t = [] then
      if k < 2 then '\n' :: tidyGo rest (k + 1) else tidyGo rest k
    else
      t ++ '\n' :: tidyGo rest 0

/-- `TidyAllLines`: trim every line, cap blank-line runs at two, and drop the
final character of the reassembled string (`res.substr(0, res.length() - 1)`;
on the empty result the `size_t` wrap makes `substr` return the empty string,
which `dropLast` also does). -/
def TidyAllLines (s : List Char) : List Char :=
  (tidyGo (Explode '\n' s) 0).dropLast

/-- `CleanUpMarkdown`: `TidyAllLines` followed by the fixed, ordered substring
repairs. -/
def CleanUpMarkdown (md : List Char) : List Char :=
  let md := TidyAllLines md
  let md := ReplaceAll md " , ".toList ", ".toList
  let md := ReplaceAll md "\n.\n".toList ".\n".toList
  let md := ReplaceAll md "\n↵\n".toList " ↵\n".toList
  let md := ReplaceAll md "\n*\n".toList "\n".toList
  let md := ReplaceAll md "\n. ".toList ".\n".toList
  let md := ReplaceAll md " [ ".toList " [".toList
  ReplaceAll md "\n[ ".toList "\n[".toList

/-- Scan for the `-->` closing a comment: succeeds (returning the suffix after
`-->`) only if no newline intervenes, since `.` in `std::regex` does not match
newlines; a newline makes the regex match attempt fail. -/
def commentEnd : List Char → Option (List Char)
  | [] => none
  | c :: cs =>
    if leadsList "-->".toList (c :: cs) then some (List.drop 3 (c :: cs))
    else if c = '\n' then none
    else commentEnd cs

/-- Fuelled comment-stripping loop; since every step strictly shortens the
remaining text, fuel equal to the text length is always sufficient. -/
def stripCommentsFuel : Nat → List Char → List Char
  | 0, l => l
  | _, [] => []
  | fuel + 1, c :: cs =>
    if leadsList "<!--".toList (c :: cs) then
      match commentEnd (List.drop 4 (c :: cs)) with
      | some rest => stripCommentsFuel fuel rest
      | none => c :: stripCommentsFuel fuel cs
    else
      c :: stripCommentsFuel fuel cs

/-- `regex_replace(html, "<!--(.*?)-->", "")`: strip each comment whose `-->`
is reached without crossing a newline (lazy match with `.` not matching
newlines); otherwise the match attempt at this position fails and scanning
moves on. -/
def stripComments (l : List Char) : List Char := stripCommentsFuel l.length l

/-- `PrepareHtml`: tab and entity normalization, then comment stripping. -/
def PrepareHtml (html : List Char) : List Char :=
  let h := ReplaceAll html "\t".toList " ".toList
  let h := ReplaceAll h "&amp;".toList "&".toList
  let h := ReplaceAll h "&nbsp;".toList " ".toList
  let h := ReplaceAll h "&rarr;".toList "→".toList
  stripComments h

/-! ### Tag-name constants -/

def kAttributeHref : List Char := "href".toList
def kTagAnchor : List Char := "a".toList
def kTagBold : List Char := "b".toList
def kTagBreak : List Char := "br".toList
def kTagDiv : List Char := "div".toList
def kTagHead : List Char := "head".toList
def kTagHeader1 : List Char := "h1".toList
def kTagHeader2 : List Char := "h2".toList
def kTagHeader3 : List Char := "h3".toList
def kTagHeader4 : List Char := "h4".toList
def kTagLink : List Char := "link".toList
def kTagListItem : List Char := "li".toList
def kTagMeta : List Char := "meta".toList
def kTagNav : List Char := "nav".toList
def kTagNoScript : List Char := "noscript".toList
def kTagOption : List Char := "option".toList
def kTagOrderedList : List Char := "ol".toList
def kTagParagraph : List Char := "p".toList
def kTagPre : List Char := "pre".toList
def kTagScript : List Char := "script".toList
def kTagSpan : List Char := "span".toList
def kTagStrong : List Char := "strong".toList
def kTagStyle : List Char := "style".toList
def kTagTemplate : List Char := "template".toList
def kTagTitle : List Char := "title".toList
def kTagUnorderedList : List Char := "ul".toList

/-! ### Converter state -/

/-- The mutable fields of the `Converter` instance; the two unused
`<li>`-related fields of the source (`is_in_ordered_list_`, `index_li`) are
omitted since no code reads them.  Fields left uninitialized by the source are
given deterministic defaults (`nullCh` / 0) and noted as such. -/
structure Conv where
  index_ch_in_html : Nat := 0
  dom_tags : List (List Char) := []
  is_in_tag : Bool := false
  is_closing_tag : Bool := false
  is_in_attribute_value : Bool := false
  prev_ch_in_md : Char := nullCh        -- uninitialized in the source
  prev_prev_ch_in_md : Char := nullCh   -- uninitialized in the source
  prev_ch_in_html : Char := 'x'
  html : List Char := []
  offset_lt : Nat := 0                  -- u_int16_t, uninitialized in the source
  current_tag : List Char := []
  prev_tag : List Char := []
  current_attribute : List Char := []
  current_attribute_value : List Char := []
  current_href : List Char := []
  chars_in_curr_line : Nat := 0
  char_index_in_tag_content : Nat := 0
  md : List Char := []
  md_len : Nat := 0                     -- size_t cache, uninitialized in the source
  deriving Repr, DecidableEq

/-- `UpdateMdLen`. -/
def updateMdLen (st : Conv) : Conv := { st with md_len := st.md.length }

/-- The set of tags whose subtrees are suppressed (`IsIgnoredTag`). -/
def isIgnoredTag (t : List Char) : Bool :=
  t = kTagTemplate || t = kTagStyle || t = kTagScript || t = kTagNoScript || t = kTagNav

/-- `IsInIgnoredTag`: scan the ancestor stack from index 0 (the outermost open
tag); the first `pre`/`title` found forces `false`, the first ignored tag found
forces `true`. -/
def isInIgnoredTagList : List (List Char) → Bool
  | [] => false
  | t :: rest =>
    if t = kTagPre ∨ t = kTagTitle then false
    else if isIgnoredTag t = true then true
    else isInIgnoredTagList rest

/-- `AppendToMd(char)`. -/
def appendToMdChar (st : Conv) (ch : Char) : Conv :=
  if isInIgnoredTagList st.dom_tags then st
  else
    { st with
      md := st.md ++ [ch],
      chars_in_curr_line := if ch = '\n' then 0 else inc16 st.chars_in_curr_line }

/-- Line-counter update for one character of an appended string. -/
def bumpLine (n : Nat) (ch : Char) : Nat := if ch = '\n' then 0 else inc16 n

/-- `AppendToMd(const char*)`. -/
def appendToMdStr (st : Conv) (s : List Char) : Conv :=
  if isInIgnoredTagList st.dom_tags then st
  else
    { st with
      md := st.md ++ s,
      chars_in_curr_line := s.foldl bumpLine st.chars_in_curr_line }

/-- `UpdatePrevChFromMd`: refresh the one/two-character look-back cache; a
buffer of length 1 leaves the two-back cache stale, an empty buffer leaves
both stale. -/
def updatePrevChFromMd (st : Conv) : Conv :=
  if st.md.length = 0 then st
  else
    { st with
      prev_ch_in_md := st.md.getD (st.md.length - 1) nullCh,
      prev_prev_ch_in_md :=
        if 1 < st.md.length then st.md.getD (st.md.length - 2) nullCh
        else st.prev_prev_ch_in_md }

/-- `AppendBlank`. -/
def appendBlank (st : Conv) : Conv :=
  let st := updatePrevChFromMd st
  if st.prev_ch_in_md = '\n' ∨ (st.prev_ch_in_md = '*' ∧ st.prev_prev_ch_in_md = '*') then st
  else appendToMdChar st ' '

/-- `ShortenMarkdown(chars)`: `md_ = md_.substr(0, md_len_ - chars)` with
`size_t` subtraction; when `chars` exceeds the length the subtraction wraps to
a huge count and `substr` (here `List.take`, which clamps) returns the whole
buffer. -/
def shortenMarkdown (st : Conv) (chars : Nat) : Conv :=
  let st := updateMdLen st
  let cnt := (st.md_len + (two64 - chars % two64)) % two64
  updatePrevChFromMd { st with md := st.md.take cnt }

/-- `RTrim(&md_, true)` as used by the anchor opening handler: trim trailing
blanks from the buffer without touching the counters. -/
def rtrimMdBlank (st : Conv) : Conv := { st with md := dropTrailP isBlankC st.md }

/-- `TurnLineIntoHeader1`: setext-underline the current line with `=`
(writes to the buffer directly, bypassing `AppendToMd`). -/
def turnLineIntoHeader1 (st : Conv) : Conv :=
  { st with
    md := st.md ++ '\n' :: (List.replicate st.chars_in_curr_line '=' ++ "\n\n".toList),
    chars_in_curr_line := 0 }

/-- `TurnLineIntoHeader2`: setext-underline the current line with `-`
(writes to the buffer directly, bypassing `AppendToMd`). -/
def turnLineIntoHeader2 (st : Conv) : Conv :=
  { st with
    md := st.md ++ '\n' :: (List.replicate st.chars_in_curr_line '-' ++ "\n\n".toList),
    chars_in_curr_line := 0 }

/-- `html_.substr(offset_lt_, index_ch_in_html_ - offset_lt_)`: the `int`
difference of the two `u_int16_t` offsets converts to a huge `size_t` when
negative, in which case `substr` yields the whole remaining suffix. -/
def sliceTag (html : List Char) (offset idx : Nat) : List Char :=
  if offset ≤ idx then (html.drop offset).take (idx - offset) else html.drop offset

/-- Quote-kind selection of `ExtractAttributeFromTagLeftOf`: whichever quote
character occurs first after the `=`. -/
def pickQuote (od os : Option Nat) : Option (Char × Nat) :=
  match od, os with
  | none, none => none
  | some d, none => some ('"', d)
  | none, some s => some (q39, s)
  | some d, some s => if d < s then some ('"', d) else some (q39, s)

/-- `ExtractAttributeFromTagLeftOf`, as a function of the raw tag span. -/
def extractAttributeFromTag (tag attr : List Char) : List Char :=
  match findSub tag attr 0 with
  | none => []
  | some offsetAttr =>
    match findCharFrom tag '=' offsetAttr with
    | none => []
    | some offsetEquals =>
      match pickQuote (findCharFrom tag '"' offsetEquals)
                      (findCharFrom tag q39 offsetEquals) with
      | none => []
      | some (q, oq) =>
        match findCharFrom tag q (oq + 1) with
        | none => []
        | some cq => (tag.drop (oq + 1)).take (cq - 1 - oq)

/-- The converter method wrapper: re-slice the raw tag from the stored html
around `offset_lt_`. -/
def extractAttributeFromTagLeftOf (st : Conv) (attr : List Char) : List Char :=
  extractAttributeFromTag (sliceTag st.html st.offset_lt st.index_ch_in_html) attr

/-! ### Tag handlers -/

def tagIgnoredOpen (st : Conv) : Conv := st
def tagIgnoredClose (st : Conv) : Conv := st

def tagAnchorOpen (st : Conv) : Conv :=
  if isInIgnoredTagList st.dom_tags then st
  else
    let st := rtrimMdBlank st
    let st := appendBlank st
    let st := appendToMdStr st "[".toList
    { st with current_href := extractAttributeFromTagLeftOf st kAttributeHref }

def tagAnchorClose (st : Conv) : Conv :=
  if isInIgnoredTagList st.dom_tags then st
  else
    let st := if st.prev_ch_in_md = ' ' then shortenMarkdown st 1 else st
    if st.prev_ch_in_md = '[' then shortenMarkdown st 1
    else appendToMdStr (appendToMdStr (appendToMdStr st "](".toList) st.current_href) ") ".toList

def tagBoldOpen (st : Conv) : Conv :=
  let st := if st.prev_ch_in_md ≠ ' ' then appendToMdChar st ' ' else st
  appendToMdStr st "**".toList

def tagBoldClose (st : Conv) : Conv :=
  let st := if st.prev_ch_in_md = ' ' then shortenMarkdown st 1 else st
  appendToMdStr st "**".toList

def tagBreakClose (st : Conv) : Conv :=
  if 0 < st.md_len then appendToMdStr st "  \n".toList else st

def tagDivOpen (st : Conv) : Conv :=
  let st := if st.prev_ch_in_md ≠ '\n' then appendToMdChar st '\n' else st
  if st.prev_prev_ch_in_md ≠ '\n' then appendToMdChar st '\n' else st

def tagHeader1Close (st : Conv) : Conv :=
  if 0 < st.md_len then turnLineIntoHeader2 st else st

def tagHeader2Open (st : Conv) : Conv := appendToMdStr st "\n\n\n### ".toList
def tagHeader2Close (st : Conv) : Conv := appendToMdStr st "\n\n".toList
def tagHeader3Open (st : Conv) : Conv := appendToMdStr st "\n\n\n#### ".toList
def tagHeader3Close (st : Conv) : Conv := appendToMdStr st "\n\n".toList
def tagHeader4Open (st : Conv) : Conv := appendToMdStr st "\n\n\n##### ".toList
def tagHeader4Close (st : Conv) : Conv := appendToMdStr st "\n\n".toList

def tagListItemOpen (st : Conv) : Conv :=
  let st := if st.prev_ch_in_md ≠ '\n' then appendToMdStr st "\n".toList else st
  appendToMdStr st "* ".toList

def tagListItemClose (st : Conv) : Conv :=
  if 0 < st.md_len then appendToMdStr st "  \n".toList else st

def tagOptionClose (st : Conv) : Conv :=
  if 0 < st.md_len then appendToMdStr st "  \n".toList else st

def tagOrderedListOpen (st : Conv) : Conv :=
  let st := if st.prev_ch_in_md ≠ '\n' then appendToMdStr st "\n".toList else st
  if st.prev_prev_ch_in_md ≠ '\n' then appendToMdStr st "\n".toList else st

def tagParagraphClose (st : Conv) : Conv :=
  if st.md.isEmpty then st else appendToMdStr st "  \n\n".toList

def tagPreOpen (st : Conv) : Conv :=
  let st := if st.prev_ch_in_md ≠ '\n' then appendToMdChar st '\n' else st
  let st := if st.prev_prev_ch_in_md ≠ '\n' then appendToMdChar st '\n' else st
  appendToMdStr st "````\n".toList

def tagPreClose (st : Conv) : Conv := appendToMdStr st "\n````\n\n".toList

def tagSpanClose (st : Conv) : Conv :=
  if st.prev_ch_in_md ≠ ' ' ∧ 0 < st.char_index_in_tag_content then appendToMdChar st ' '
  else st

def tagTitleClose (st : Conv) : Conv := turnLineIntoHeader1 st

def tagUnorderedListOpen (st : Conv) : Conv :=
  let st := if st.prev_ch_in_md ≠ '\n' then appendToMdStr st "\n".toList else st
  if st.prev_prev_ch_in_md ≠ '\n' then appendToMdStr st "\n".toList else st

/-- The handler kinds registered in the `tags_` map (one constructor per
distinct handler object; `b` and `strong` share `bold`). -/
inductive TagKind where
  | ignored | anchor | br | div | h1 | h2 | h3 | h4
  | li | opt | ol | par | pre | span | title | ul | bold
  deriving Repr, DecidableEq

/-- The `tags_` lookup: `nullptr` (no handler) is `none`; note `link` is not
registered. -/
def lookupTag (t : List Char) : Option TagKind :=
  if t = kTagHead ∨ t = kTagMeta ∨ t = kTagNav ∨ t = kTagNoScript ∨ t = kTagScript
     ∨ t = kTagStyle ∨ t = kTagTemplate then some .ignored
  else if t = kTagAnchor then some .anchor
  else if t = kTagBreak then some .br
  else if t = kTagDiv then some .div
  else if t = kTagHeader1 then some .h1
  else if t = kTagHeader2 then some .h2
  else if t = kTagHeader3 then some .h3
  else if t = kTagHeader4 then some .h4
  else if t = kTagListItem then some .li
  else if t = kTagOption then some .opt
  else if t = kTagOrderedList then some .ol
  else if t = kTagPre then some .pre
  else if t = kTagParagraph then some .par
  else if t = kTagSpan then some .span
  else if t = kTagTitle then some .title
  else if t = kTagUnorderedList then some .ul
  else if t = kTagBold ∨ t = kTagStrong then some .bold
  else none

def dispatchOpen : TagKind → Conv → Conv
  | .ignored => tagIgnoredOpen
  | .anchor => tagAnchorOpen
  | .br => fun st => st
  | .div => tagDivOpen
  | .h1 => fun st => st
  | .h2 => tagHeader2Open
  | .h3 => tagHeader3Open
  | .h4 => tagHeader4Open
  | .li => tagListItemOpen
  | .opt => fun st => st
  | .ol => tagOrderedListOpen
  | .par => fun st => st
  | .pre => tagPreOpen
  | .span => fun st => st
  | .title => fun st => st
  | .ul => tagUnorderedListOpen
  | .bold => tagBoldOpen

def dispatchClose : TagKind → Conv → Conv
  | .ignored => tagIgnoredClose
  | .anchor => tagAnchorClose
  | .br => tagBreakClose
  | .div => fun st => st
  | .h1 => tagHeader1Close
  | .h2 => tagHeader2Close
  | .h3 => tagHeader3Close
  | .h4 => tagHeader4Close
  | .li => tagListItemClose
  | .opt => tagOptionClose
  | .ol => fun st => st
  | .par => tagParagraphClose
  | .pre => tagPreClose
  | .span => tagSpanClose
  | .title => tagTitleClose
  | .ul => fun st => st
  | .bold => tagBoldClose

/-! ### Scanner -/

/-- `Explode(current_tag_, ' ')[0]`; indexing the empty vector is undefined in
C++ and modelled as the empty name. -/
def firstWord (l : List Char) : List Char := (Explode ' ' l).headD []

/-- `OnHasEnteredTag` (current char `<`). -/
def onHasEnteredTag (st : Conv) : Conv :=
  let st := { st with
    offset_lt := st.index_ch_in_html,
    is_in_tag := true,
    prev_tag := st.current_tag,
    current_tag := [] }
  if st.md.isEmpty then st
  else
    let st := { st with prev_ch_in_md := st.md.getD (st.md.length - 1) nullCh }
    if st.prev_ch_in_md ≠ ' ' ∧ st.prev_ch_in_md ≠ '\n' then { st with md := st.md ++ [' '] }
    else st

/-- `OnHasLeftTag` (current char `>`): finalize the tag name, refresh the
look-back, dispatch the handler and maintain the ancestor stack; a name with
no handler leaves stack, buffer and closing-flag untouched. -/
def onHasLeftTag (st : Conv) : Conv :=
  let st := { st with is_in_tag := false }
  let st := updateMdLen st
  let st := { st with current_tag := firstWord st.current_tag }
  let st := { st with
    prev_ch_in_md := st.md.getD (st.md_len - 1) nullCh,
    char_index_in_tag_content := 0 }
  match lookupTag st.current_tag with
  | none => st
  | some k =>
    if st.is_closing_tag then
      let st := { st with is_closing_tag := false }
      let st := dispatchClose k st
      if st.dom_tags.isEmpty then st else { st with dom_tags := st.dom_tags.dropLast }
    else
      let st := { st with dom_tags := st.dom_tags ++ [st.current_tag] }
      dispatchOpen k st

/-- `ParseCharInTag`: returns (continue-iteration?, new state). -/
def parseCharInTag (st : Conv) (ch : Char) : Bool × Conv :=
  if ch = '/' ∧ st.current_tag = [] then (true, { st with is_closing_tag := true })
  else if ch = '>' then (true, onHasLeftTag st)
  else if ch = '=' then (true, st)
  else if ch = '"' then
    (true,
      if st.is_in_attribute_value then
        { st with is_in_attribute_value := false, current_attribute := [],
                  current_attribute_value := [] }
      else if st.prev_ch_in_md = '=' then { st with is_in_attribute_value := true }
      else st)
  else
    let st :=
      if st.is_in_attribute_value then
        { st with current_attribute_value := st.current_attribute_value ++ [ch] }
      else
        { st with current_attribute := st.current_attribute ++ [ch] }
    (false, { st with current_tag := st.current_tag ++ [ch] })

/-- `ParseCharInTagContent`: returns (continue-iteration?, new state). -/
def parseCharInTagContent (st : Conv) (ch : Char) : Bool × Conv :=
  if ch = '\n' then (true, st)
  else if isInIgnoredTagList st.dom_tags ∨ st.current_tag = kTagLink then
    (true, { st with prev_ch_in_html := ch })
  else
    let st := { st with
      prev_ch_in_md := if 0 < st.md_len then st.md.getD (st.md_len - 1) nullCh else '.',
      prev_prev_ch_in_md := if 1 < st.md_len then st.md.getD (st.md_len - 2) nullCh else '.' }
    if ch = ' ' ∧ (st.md_len = 0 ∨ st.char_index_in_tag_content = 0
        ∨ st.prev_ch_in_md = ' ' ∨ st.prev_ch_in_md = '\n') then
      (true, st)
    else
      let st1 : Conv :=
        if ch = '.' ∧ st.prev_ch_in_md = ' ' then
          let st0 := shortenMarkdown st 1
          { st0 with chars_in_curr_line := dec16 st0.chars_in_curr_line }
        else st
      let st2 : Conv := { st1 with
        md := st1.md ++ [ch],
        chars_in_curr_line := inc16 st1.chars_in_curr_line,
        char_index_in_tag_content := inc16 st1.char_index_in_tag_content }
      let st3 : Conv :=
        if 80 < st2.chars_in_curr_line ∧ ch = ' ' then
          { st2 with md := st2.md ++ ['\n'], chars_in_curr_line := 0 }
        else st2
      (false, st3)

/-- One iteration of the `Convert2Md` character loop; `index_ch_in_html_` is
incremented only when the active parse function returns `false`. -/
def step (st : Conv) (ch : Char) : Conv :=
  if ¬ st.is_in_tag ∧ ch = '<' then onHasEnteredTag st
  else
    let st := updateMdLen st
    if st.is_in_tag then
      let r := parseCharInTag st ch
      if r.1 then r.2 else { r.2 with index_ch_in_html := inc16 r.2.index_ch_in_html }
    else
      let r := parseCharInTagContent st ch
      if r.1 then r.2 else { r.2 with index_ch_in_html := inc16 r.2.index_ch_in_html }

/-- `Convert2Md`: the single pass over the (prepared) input characters. -/
def Convert2Md (st : Conv) (html : List Char) : Conv := html.foldl step st

/-- `Converter::Convert`: the constructor captures the html *before*
`PrepareHtml` rewrites the caller's string (so attribute re-slicing happens on
the original text), scanning runs over the prepared text, and the result is
normalized. -/
def Convert (html : List Char) : List Char :=
  let st0 : Conv := { html := html }
  let prepared := PrepareHtml html
  CleanUpMarkdown (Convert2Md st0 prepared).md

/-! ### Definitions supporting the claim statements and proofs -/

/-- Comparison semantics for the suppression test: scanning outermost-first,
the first tag that is either ignored or `pre`/`title` decides; suppression
holds exactly when that first deciding tag is an ignored one. -/
def suppressionByOutermost : List (List Char) → Bool
  | [] => false
  | t :: rest =>
    if isIgnoredTag t = true ∨ t = kTagPre ∨ t = kTagTitle then isIgnoredTag t
    else suppressionByOutermost rest

/-- The failure conditions of the attribute extractor, in the order the source
tests them: attribute name absent, no `=` after it, no quote after the `=`, or
no closing quote of the chosen kind after the opening one. -/
def attrLookupFailure (tag attr : List Char) : Bool :=
  match findSub tag attr 0 with
  | none => true
  | some a =>
    match findCharFrom tag '=' a with
    | none => true
    | some e =>
      match pickQuote (findCharFrom tag '"' e) (findCharFrom tag q39 e) with
      | none => true
      | some (q, oq) => (findCharFrom tag q (oq + 1)).isNone

/-- The lines kept by the `TidyAllLines` loop (same traversal as `tidyGo`,
but returning the list of kept lines instead of the reassembled text). -/
def normGo : List (List Char) → Nat → List (List Char)
  | [], _ => []
  | line :: rest, k =>
    let t := TrimS line
    if t = [] then
      if k < 2 then [] :: normGo rest (k + 1) else normGo rest k
    else
      t :: normGo rest 0

/-- Append `'\n'` after every line and concatenate (the exact shape of the
`res` accumulator of `TidyAllLines`). -/
def joinAll : List (List Char) → List Char
  | [] => []
  | t :: rest => t ++ '\n' :: joinAll rest

/-- Lines interleaved with single newlines (the shape of `res` after its final
character is dropped, when the last kept line is non-blank). -/
def interNL : List (List Char) → List Char
  | [] => []
  | [t] => t
  | t :: rest => t ++ '\n' :: interNL rest

/-- Length of the leading run of newline characters. -/
def leadRunNL (l : List Char) : Nat := (l.takeWhile fun c => c = '\n').length

/-- A run of four consecutive newlines. -/
def nl4 : List Char := List.replicate 4 '\n'

/-- A run of three consecutive newlines. -/
def nl3 : List Char := List.replicate 3 '\n'

/-- A header-1 closing state: buffer `Hello`, five characters on the current
line. -/
def stHello : Conv := { md := "Hello".toList, md_len := 5, chars_in_curr_line := 5 }

/-- A two-character buffer state for truncation tests. -/
def stAB : Conv := { md := "ab".toList }

/-- A state about to leave the unregistered tag `foo` with an empty ancestor
stack. -/
def stFoo : Conv := { md := "x".toList, current_tag := "foo".toList }

/-- A content state one past the wrap threshold: line counter 81 and a
non-space, non-newline buffer tail. -/
def stWrap : Conv :=
  { md := "a".toList, md_len := 1, chars_in_curr_line := 81, char_index_in_tag_content := 1 }

/-- A single-character buffer `*` whose stale two-back cache still holds `*`. -/
def stStar : Conv := { md := "*".toList, prev_prev_ch_in_md := '*' }

/-- An anchor-closing state with non-blank tail and empty stored `href`. -/
def stAnchor : Conv := { md := "x".toList, prev_ch_in_md := 'x' }

/-- A state inside a suppressed `<nav>` subtree. -/
def stNav : Conv := { md := "m".toList, dom_tags := [kTagNav] }

/-! ## Theorems -/

/-- Projections of `updatePrevChFromMd` that are never changed. -/
theorem updatePrevChFromMd_md (st : Conv) : (updatePrevChFromMd st).md = st.md := by
  unfold updatePrevChFromMd
  split <;> rfl

/-- C2 counterexample: on the buffer `Hello` with five characters on the
current line, leaving `</h1>` underlines with `-` (via `TurnLineIntoHeader2`),
not with `=` as the claim states. -/
theorem c2_counterexample :
    (tagHeader1Close stHello).md = "Hello\n-----\n\n".toList ∧
    (tagHeader1Close stHello).md ≠ "Hello\n=====\n\n".toList := by
  constructor <;> decide

/-- C2 (amended): when the buffer-length cache is positive, leaving a closing
`h1` appends a newline, a run of `-` as long as the current line, and two
newlines, and resets the line counter. -/
theorem c2_h1_setext_dashes (st : Conv) (h : 0 < st.md_len) :
    (tagHeader1Close st).md
      = st.md ++ '\n' :: (List.replicate st.chars_in_curr_line '-' ++ "\n\n".toList)
    ∧ (tagHeader1Close st).chars_in_curr_line = 0 := by
  simp [tagHeader1Close, turnLineIntoHeader2, h]

/-- Witness for C2 at the `Hello` state. -/
theorem c2_h1_setext_dashes_witness :
    (tagHeader1Close stHello).md
      = stHello.md ++ '\n' :: (List.replicate stHello.chars_in_curr_line '-' ++ "\n\n".toList)
    ∧ (tagHeader1Close stHello).chars_in_curr_line = 0 :=
  c2_h1_setext_dashes stHello (by decide)

/-- C3 counterexample: shortening the two-character buffer `ab` by 3 leaves it
unchanged (the `size_t` subtraction wraps and `substr` clamps to the whole
string); the claim's predicted empty buffer is not produced. -/
theorem c3_counterexample :
    (shortenMarkdown stAB 3).md = "ab".toList ∧ (shortenMarkdown stAB 3).md ≠ [] := by
  constructor <;> decide

/-- C3 (amended): shortening removes the last `n` characters when `n` is at
most the buffer length; when `n` exceeds it the buffer is left unchanged, and
no error is possible in either case. -/
theorem c3_shorten_clamps (st : Conv) (n : Nat)
    (hl : st.md.length < two64) (hn : n < two64) :
    (shortenMarkdown st n).md
      = if n ≤ st.md.length then st.md.take (st.md.length - n) else st.md := by
  unfold shortenMarkdown updateMdLen
  rw [updatePrevChFromMd_md]
  by_cases h : n ≤ st.md.length
  · have hc : (st.md.length + (two64 - n % two64)) % two64 = st.md.length - n := by
      simp only [two64] at *
      omega
    simp [hc, h]
  · have hc : (st.md.length + (two64 - n % two64)) % two64
        = st.md.length + (two64 - n) := by
      simp only [two64] at *
      omega
    have hge : st.md.length ≤ st.md.length + (two64 - n) := Nat.le_add_right _ _
    simp [hc, h, List.take_of_length_le hge]

/-- Witness for C3: shortening `ab` by 1 yields `a`. -/
theorem c3_shorten_clamps_witness : (shortenMarkdown stAB 1).md = "a".toList := by
  rw [c3_shorten_clamps stAB 1 (by decide) (by decide)]
  decide

/-- C4 counterexample: leaving the unregistered opening tag `foo` does not push
it: the ancestor stack stays empty, contradicting the claimed push. -/
theorem c4_counterexample :
    (onHasLeftTag stFoo).dom_tags = [] ∧ ¬ (onHasLeftTag stFoo).dom_tags = ["foo".toList] := by
  constructor <;> decide

/-- C4 (amended): a tag name with no registered handler mutates neither the
buffer nor the ancestor stack, and also leaves the closing-tag flag as it was
(so a stray unknown closing tag leaks its flag into the next tag). -/
theorem c4_unregistered_tag (st : Conv)
    (h : lookupTag (firstWord st.current_tag) = none) :
    (onHasLeftTag st).dom_tags = st.dom_tags ∧ (onHasLeftTag st).md = st.md
    ∧ (onHasLeftTag st).is_closing_tag = st.is_closing_tag := by
  unfold onHasLeftTag updateMdLen
  simp [h]

/-- Witness for C4 at the `foo` state. -/
theorem c4_unregistered_tag_witness :
    (onHasLeftTag stFoo).dom_tags = stFoo.dom_tags ∧ (onHasLeftTag stFoo).md = stFoo.md
    ∧ (onHasLeftTag stFoo).is_closing_tag = stFoo.is_closing_tag :=
  c4_unregistered_tag stFoo (by decide)

/-- C5 counterexample: with the line counter at 81, an incoming space is
appended *and then* a newline follows it — the space is not replaced. -/
theorem c5_counterexample :
    ((parseCharInTagContent stWrap ' ').2).md = "a \n".toList ∧
    ((parseCharInTagContent stWrap ' ').2).md ≠ "a\n".toList := by
  constructor <;> decide

/-- C5 (amended): when a space is actually appended and the incremented line
counter exceeds 80, a newline is appended after the space and the counter is
reset to zero. -/
theorem c5_wrap_appends_after_space (st : Conv)
    (hig : isInIgnoredTagList st.dom_tags = false)
    (hlink : st.current_tag ≠ kTagLink)
    (hlen : 0 < st.md_len)
    (hidx : 0 < st.char_index_in_tag_content)
    (hprev1 : st.md.getD (st.md_len - 1) nullCh ≠ ' ')
    (hprev2 : st.md.getD (st.md_len - 1) nullCh ≠ '\n')
    (hchars : 80 ≤ st.chars_in_curr_line) (hch : st.chars_in_curr_line < 65535) :
    ((parseCharInTagContent st ' ').2).md = st.md ++ [' ', '\n']
    ∧ ((parseCharInTagContent st ' ').2).chars_in_curr_line = 0 := by
  have hinc : inc16 st.chars_in_curr_line = st.chars_in_curr_line + 1 := by
    simp only [inc16, two16]
    omega
  have hw : 80 < st.chars_in_curr_line + 1 := by omega
  simp only [List.getD_eq_getElem?_getD] at hprev1 hprev2
  simp [parseCharInTagContent, hig, hlink, hlen, hprev1, hprev2, hinc, hw,
        Nat.pos_iff_ne_zero.mp hlen, Nat.pos_iff_ne_zero.mp hidx]

/-- Witness for C5 at the threshold state. -/
theorem c5_wrap_appends_after_space_witness :
    ((parseCharInTagContent stWrap ' ').2).md = stWrap.md ++ [' ', '\n']
    ∧ ((parseCharInTagContent stWrap ' ').2).chars_in_curr_line = 0 :=
  c5_wrap_appends_after_space stWrap rfl (by decide) (by decide) (by decide)
    (by decide) (by decide) (by decide) (by decide)

/-- C9 counterexample: on the one-character buffer `*` with a stale two-back
cache of `*`, `AppendBlank` appends nothing although the buffer ends neither
in a newline nor in `**`. -/
theorem c9_counterexample :
    (appendBlank stStar).md = "*".toList ∧ "*".toList ≠ "* ".toList := by
  constructor <;> decide

/-- C9 (amended): outside suppressed subtrees and on buffers of length at
least two (so the look-back cache is fully refreshed), `AppendBlank` appends
exactly one space unless the buffer ends in a newline or in `**`. -/
theorem c9_appendBlank (st : Conv) (h1 : isInIgnoredTagList st.dom_tags = false)
    (h2 : 2 ≤ st.md.length) :
    (appendBlank st).md =
      if st.md.getD (st.md.length - 1) nullCh = '\n'
         ∨ (st.md.getD (st.md.length - 1) nullCh = '*'
            ∧ st.md.getD (st.md.length - 2) nullCh = '*') then st.md
      else st.md ++ [' '] := by
  have hne : ¬ st.md.length = 0 := by omega
  have hlt : 1 < st.md.length := by omega
  simp only [appendBlank, updatePrevChFromMd, hne, if_false, hlt, if_true]
  split <;> simp_all [appendToMdChar]

/-- Witness for C9 on the buffer `ab`. -/
theorem c9_appendBlank_witness : (appendBlank stAB).md = "ab".toList ++ [' '] := by
  rw [c9_appendBlank stAB rfl (by decide)]
  decide

/-- C10 counterexample: converting `A<nav><title>B</title></nav>C` emits a `=`
setext underline generated by the title handler from inside the suppressed
`<nav>` subtree, so not all handler-generated markup is withheld there. -/
theorem c10_counterexample :
    Convert "A<nav><title>B</title></nav>C".toList = "A\n=\n\nC".toList ∧
    occursIn "=".toList (Convert "A<nav><title>B</title></nav>C".toList) = true := by
  constructor <;> decide

/-- C10 (amended): the two `AppendToMd` overloads are complete no-ops (the
whole state, in particular buffer and line counter, is unchanged) whenever the
ancestor stack indicates suppression; handlers writing to the buffer directly
(the setext underliners and the tag-entry blank) bypass this. -/
theorem c10_append_noop_in_ignored (st : Conv) (ch : Char) (s : List Char)
    (h : isInIgnoredTagList st.dom_tags = true) :
    appendToMdChar st ch = st ∧ appendToMdStr st s = st := by
  constructor <;> simp [appendToMdChar, appendToMdStr, h]

/-- Witness for C10 inside the `<nav>` state. -/
theorem c10_append_noop_in_ignored_witness :
    appendToMdChar stNav 'x' = stNav ∧ appendToMdStr stNav "ab".toList = stNav :=
  c10_append_noop_in_ignored stNav 'x' "ab".toList (by decide)

/-- C8: whenever the attribute lookup fails (name absent, no `=`, no quote, or
no matching closing quote of the same kind), the extractor returns the empty
value; the anchor closing handler on a non-blank, non-`[` tail with an empty
stored `href` then emits a link with an empty target. -/
theorem c8_extract_fail_empty (tag attr : List Char) (st : Conv)
    (hfail : attrLookupFailure tag attr = true)
    (hig : isInIgnoredTagList st.dom_tags = false)
    (h1 : st.prev_ch_in_md ≠ ' ') (h2 : st.prev_ch_in_md ≠ '[')
    (h3 : st.current_href = []) :
    extractAttributeFromTag tag attr = [] ∧ (tagAnchorClose st).md = st.md ++ "]() ".toList := by
  constructor
  · unfold extractAttributeFromTag
    unfold attrLookupFailure at hfail
    cases hA : findSub tag attr 0 with
    | none => rfl
    | some a =>
      rw [hA] at hfail
      dsimp only at hfail ⊢
      cases hE : findCharFrom tag '=' a with
      | none => rfl
      | some e =>
        rw [hE] at hfail
        dsimp only at hfail ⊢
        cases hQ : pickQuote (findCharFrom tag '"' e) (findCharFrom tag q39 e) with
        | none => rfl
        | some qp =>
          rw [hQ] at hfail
          dsimp only at hfail ⊢
          obtain ⟨q, oq⟩ := qp
          simp only [Option.isNone_iff_eq_none] at hfail
          simp [hfail]
  · have happ : ("](".toList : List Char) ++ ([] ++ ") ".toList) = "]() ".toList := by decide
    simp only [tagAnchorClose, hig, Bool.false_eq_true, if_false, h1, h2, h3, if_neg,
      appendToMdStr]
    simp [appendToMdStr, hig, List.append_assoc, happ]

/-- Witness for C8 on the attribute-free tag `<a>` and the anchor state. -/
theorem c8_extract_fail_empty_witness :
    extractAttributeFromTag "<a>".toList "href".toList = []
    ∧ (tagAnchorClose stAnchor).md = stAnchor.md ++ "]() ".toList :=
  c8_extract_fail_empty "<a>".toList "href".toList stAnchor (by decide) rfl
    (by decide) (by decide) rfl

/-- C1 counterexample: text inside `<pre>` nested in `<template>` is *not*
emitted — the whole conversion yields the empty string, contradicting the
claimed `pre` escape for descendants of ignored tags. -/
theorem c1_counterexample :
    Convert "<template><pre>X</pre></template>".toList = [] := by decide

/-- C1 (amended): content characters never reach the buffer while the
suppression test holds, and the test scans the ancestor stack outermost-first:
the first `pre`/`title`/ignored tag decides, so `pre`/`title` escape
suppression only when they appear outside the ignored tag, not nested inside
it. -/
theorem c1_suppression (st : Conv) (ch : Char) (stack : List (List Char)) :
    (isInIgnoredTagList st.dom_tags = true → ((parseCharInTagContent st ch).2).md = st.md)
    ∧ isInIgnoredTagList stack = suppressionByOutermost stack := by
  constructor
  · intro h
    unfold parseCharInTagContent
    by_cases hnl : ch = '\n'
    · simp [hnl]
    · simp [hnl, h]
  · induction stack with
    | nil => rfl
    | cons t rest ih =>
      unfold isInIgnoredTagList suppressionByOutermost
      by_cases hpt : t = kTagPre ∨ t = kTagTitle
      · have hig : isIgnoredTag t = false := by
          rcases hpt with h | h <;> subst h <;> decide
        rw [if_pos hpt, if_pos (Or.inr hpt), hig]
      · by_cases hig : isIgnoredTag t = true
        · rw [if_neg hpt, if_pos hig, if_pos (Or.inl hig), hig]
        · rw [if_neg hpt, if_neg hig, if_neg (by tauto), ih]

/-- Witness for C1 inside the `<nav>` state and on the stack `[nav]`. -/
theorem c1_suppression_witness :
    ((parseCharInTagContent stNav 'x').2).md = stNav.md
    ∧ isInIgnoredTagList [kTagNav] = suppressionByOutermost [kTagNav] := by
  have h := c1_suppression stNav 'x' [kTagNav]
  exact ⟨h.1 (by decide), h.2⟩

/-- C6 counterexample: the full conversion of `A<h2>B</h2>C` contains a run of
three consecutive newlines. -/
theorem c6_counterexample :
    Convert "A<h2>B</h2>C".toList = "A\n\n\n### B\n\nC".toList
    ∧ occursIn "\n\n\n".toList (Convert "A<h2>B</h2>C".toList) = true := by
  constructor <;> decide

/-- C7 counterexample: the normalizer is not idempotent — on `A` followed by
four newlines, a second application still shrinks the result (the tidied text
ends in a blank line that only the next pass drops). -/
theorem c7_counterexample :
    CleanUpMarkdown (CleanUpMarkdown "A\n\n\n\n".toList) ≠ CleanUpMarkdown "A\n\n\n\n".toList := by
  decide

/-! ### Lemmas about trimming -/

/-- Unfolding equation for `dropTrailP` on a cons. -/
theorem dropTrailP_cons (p : Char → Bool) (c : Char) (cs : List Char) :
    dropTrailP p (c :: cs)
      = if dropTrailP p cs = [] ∧ p c = true then [] else c :: dropTrailP p cs := rfl

theorem dropTrailP_idem (p : Char → Bool) (l : List Char) :
    dropTrailP p (dropTrailP p l) = dropTrailP p l := by
  induction l with
  | nil => rfl
  | cons c cs ih =>
    rw [dropTrailP_cons]
    by_cases h : dropTrailP p cs = [] ∧ p c = true
    · rw [if_pos h]
      rfl
    · rw [if_neg h, dropTrailP_cons, ih, if_neg h]

/-- `dropTrailP` on a nonempty list is empty or keeps the head. -/
theorem dropTrailP_cons_shape (p : Char → Bool) (c : Char) (cs : List Char) :
    dropTrailP p (c :: cs) = [] ∨ ∃ r, dropTrailP p (c :: cs) = c :: r := by
  rw [dropTrailP_cons]
  by_cases h : dropTrailP p cs = [] ∧ p c = true
  · rw [if_pos h]; exact Or.inl rfl
  · rw [if_neg h]; exact Or.inr ⟨_, rfl⟩

theorem mem_dropTrailP (p : Char → Bool) (a : Char) :
    ∀ l : List Char, a ∈ dropTrailP p l → a ∈ l := by
  intro l
  induction l with
  | nil => intro h; exact h
  | cons c cs ih =>
    intro h
    rw [dropTrailP_cons] at h
    by_cases hc : dropTrailP p cs = [] ∧ p c = true
    · rw [if_pos hc] at h; cases h
    · rw [if_neg hc] at h
      rcases List.mem_cons.mp h with h | h
      · exact List.mem_cons.mpr (Or.inl h)
      · exact List.mem_cons.mpr (Or.inr (ih h))

/-- The head surviving `dropWhile p` fails `p`. -/
theorem dropWhile_head_false (p : Char → Bool) :
    ∀ (l : List Char) (c : Char) (cs : List Char), l.dropWhile p = c :: cs → p c = false := by
  intro l
  induction l with
  | nil => intro c cs h; cases h
  | cons a as ih =>
    intro c cs h
    by_cases ha : p a = true
    · rw [List.dropWhile_cons_of_pos ha] at h
      exact ih c cs h
    · rw [List.dropWhile_cons_of_neg ha] at h
      cases h
      exact Bool.eq_false_iff.mpr ha

theorem TrimS_idem (l : List Char) : TrimS (TrimS l) = TrimS l := by
  unfold TrimS RTrim LTrim
  have hL : (dropTrailP isSpaceC (List.dropWhile isSpaceC l)).dropWhile isSpaceC
      = dropTrailP isSpaceC (List.dropWhile isSpaceC l) := by
    cases hx : List.dropWhile isSpaceC l with
    | nil => rfl
    | cons c cs =>
      have hf : isSpaceC c = false := dropWhile_head_false isSpaceC l c cs hx
      rcases dropTrailP_cons_shape isSpaceC c cs with h | ⟨r, h⟩
      · rw [h]; rfl
      · rw [h]
        exact List.dropWhile_cons_of_neg (by rw [hf]; exact Bool.false_ne_true)
  rw [hL, dropTrailP_idem]

theorem mem_TrimS (a : Char) (l : List Char) : a ∈ TrimS l → a ∈ l := by
  intro h
  have h1 := mem_dropTrailP isSpaceC a (List.dropWhile isSpaceC l) h
  exact List.Sublist.subset (List.dropWhile_sublist _) h1

/-- A nonempty trimmed line does not start with a whitespace character. -/
theorem TrimS_head (l : List Char) (c : Char) (r : List Char) :
    TrimS l = c :: r → isSpaceC c = false := by
  intro h
  unfold TrimS RTrim LTrim at h
  cases hx : List.dropWhile isSpaceC l with
  | nil => rw [hx] at h; cases h
  | cons a as =>
    rw [hx] at h
    have hf : isSpaceC a = false := dropWhile_head_false isSpaceC l a as hx
    rcases dropTrailP_cons_shape isSpaceC a as with h2 | ⟨r2, h2⟩
    · rw [h2] at h; cases h
    · rw [h2] at h
      injection h with hca hr
      rw [← hca]
      exact hf

/-! ### Lemmas about Explode -/

theorem explodeAux_noNL (l : List Char) :
    ∀ tok : List Char, '\n' ∉ tok → ∀ t ∈ explodeAux '\n' l tok, '\n' ∉ t := by
  induction l with
  | nil =>
    intro tok htok t ht
    simp only [explodeAux, List.mem_singleton] at ht
    subst ht
    simpa using htok
  | cons c cs ih =>
    intro tok htok t ht
    by_cases hc : c = '\n'
    · simp only [explodeAux, if_pos hc] at ht
      cases cs with
      | nil =>
        simp only [List.mem_singleton] at ht
        subst ht
        simpa using htok
      | cons d ds =>
        rcases List.mem_cons.mp ht with h | h
        · subst h; simpa using htok
        · exact ih [] (by simp) t h
    · simp only [explodeAux, if_neg hc] at ht
      exact ih (c :: tok) (by simp [htok, Ne.symm hc]) t ht

theorem explode_noNL (s : List Char) : ∀ t ∈ Explode '\n' s, '\n' ∉ t := by
  cases s with
  | nil => intro t ht; cases ht
  | cons c cs => exact explodeAux_noNL (c :: cs) [] (by simp)

/-! ### Lemmas about occurrence and newline runs -/

theorem leadsList_append (pat x y : List Char) :
    leadsList pat x = true → leadsList pat (x ++ y) = true := by
  induction pat generalizing x with
  | nil => intro _; rfl
  | cons p ps ih =>
    intro h
    cases x with
    | nil => cases h
    | cons c cs =>
      simp only [leadsList, Bool.and_eq_true] at h
      simp only [List.cons_append, leadsList, Bool.and_eq_true]
      exact ⟨h.1, ih cs h.2⟩

theorem occursIn_append_left (pat x y : List Char) :
    occursIn pat x = true → occursIn pat (x ++ y) = true := by
  induction x with
  | nil =>
    intro h
    simp only [occursIn] at h
    cases pat with
    | nil =>
      cases y with
      | nil => rfl
      | cons d ds => simp [occursIn, leadsList]
    | cons p ps => cases h
  | cons c cs ih =>
    intro h
    simp only [occursIn, Bool.or_eq_true] at h
    simp only [List.cons_append, occursIn, Bool.or_eq_true]
    rcases h with h | h
    · exact Or.inl (by simpa [List.cons_append] using leadsList_append pat (c :: cs) y h)
    · exact Or.inr (ih h)

theorem occursIn_dropLast (pat l : List Char) :
    occursIn pat l.dropLast = true → occursIn pat l = true := by
  intro h
  cases hl : l with
  | nil => rw [hl] at h; exact h
  | cons c cs =>
    have hne : l ≠ [] := by rw [hl]; exact List.cons_ne_nil c cs
    have := occursIn_append_left pat l.dropLast [l.getLast hne] h
    rw [List.dropLast_append_getLast hne] at this
    rw [← hl]
    exact this

theorem leadsList_replicate_nl (k : Nat) :
    ∀ l : List Char, leadsList (List.replicate k '\n') l = true → k ≤ leadRunNL l := by
  induction k with
  | zero => intro l _; exact Nat.zero_le _
  | succ n ih =>
    intro l h
    rw [List.replicate_succ] at h
    cases l with
    | nil => cases h
    | cons c cs =>
      simp only [leadsList, Bool.and_eq_true] at h
      have hc : c = '\n' := by
        have := h.1
        simp only [decide_eq_true_eq] at this
        exact this.symm
      subst hc
      have := ih cs h.2
      simp only [leadRunNL] at this ⊢
      simp [List.takeWhile_cons]
      omega

theorem leadRunNL_cons_ne (c : Char) (l : List Char) (h : c ≠ '\n') :
    leadRunNL (c :: l) = 0 := by
  simp [leadRunNL, List.takeWhile_cons, h]

theorem leadRunNL_cons_nl (l : List Char) : leadRunNL ('\n' :: l) = leadRunNL l + 1 := by
  simp [leadRunNL, List.takeWhile_cons]

/-- Occurrences of a newline-headed pattern skip over newline-free text. -/
theorem occursIn_nl_head_append (pat t r : List Char) (h : '\n' ∉ t) :
    occursIn ('\n' :: pat) (t ++ r) = occursIn ('\n' :: pat) r := by
  induction t with
  | nil => rfl
  | cons c cs ih =>
    have hc : c ≠ '\n' := fun hc => h (hc ▸ List.mem_cons_self c cs)
    have hcs : '\n' ∉ cs := fun hm => h (List.mem_cons_of_mem c hm)
    simp only [List.cons_append, occursIn, leadsList]
    have : (decide ('\n' = c)) = false := by
      simp [Ne.symm hc]
    rw [this]
    simp only [Bool.false_and, Bool.false_or]
    exact ih hcs

/-- The tidied reassembly never contains four consecutive newlines, and its
leading newline run is bounded by the blank budget. -/
theorem tidyGo_nl_bound (ls : List (List Char)) :
    ∀ k : Nat, (∀ l ∈ ls, '\n' ∉ l) →
      occursIn nl4 (tidyGo ls k) = false ∧ leadRunNL (tidyGo ls k) + min k 2 ≤ 2 := by
  induction ls with
  | nil =>
    intro k _
    constructor
    · rfl
    · have : leadRunNL [] = 0 := rfl
      simp only [tidyGo, this]
      omega
  | cons line rest ih =>
    intro k hNL
    have hrest : ∀ l ∈ rest, '\n' ∉ l := fun l hl => hNL l (List.mem_cons_of_mem line hl)
    by_cases ht : TrimS line = []
    · by_cases hk : k < 2
      · have heq : tidyGo (line :: rest) k = '\n' :: tidyGo rest (k + 1) := by
          simp [tidyGo, ht, hk]
        obtain ⟨ihocc, ihlead⟩ := ih (k + 1) hrest
        rw [heq]
        constructor
        · have hlead : leadsList nl4 ('\n' :: tidyGo rest (k + 1)) = false := by
            have : leadsList nl4 ('\n' :: tidyGo rest (k + 1))
                = leadsList nl3 (tidyGo rest (k + 1)) := by
              simp [nl4, nl3, List.replicate_succ, leadsList]
            rw [this]
            by_contra hcon
            have h3 := leadsList_replicate_nl 3 (tidyGo rest (k + 1))
              (eq_true_of_ne_false hcon)
            simp only [nl3] at h3
            omega
          simp only [occursIn, hlead, Bool.false_or]
          exact ihocc
        · rw [leadRunNL_cons_nl]
          omega
      · have heq : tidyGo (line :: rest) k = tidyGo rest k := by
          simp [tidyGo, ht, hk]
        rw [heq]
        obtain ⟨ihocc, ihlead⟩ := ih k hrest
        exact ⟨ihocc, ihlead⟩
    · have heq : tidyGo (line :: rest) k = TrimS line ++ '\n' :: tidyGo rest 0 := by
        simp [tidyGo, ht]
      rw [heq]
      obtain ⟨ihocc, ihlead⟩ := ih 0 hrest
      have hnoNL : '\n' ∉ TrimS line := fun hm => hNL line (List.mem_cons_self line rest)
        (mem_TrimS '\n' line hm)
      constructor
      · have h4 : nl4 = '\n' :: nl3 := rfl
        rw [h4, occursIn_nl_head_append nl3 (TrimS line) ('\n' :: tidyGo rest 0) hnoNL]
        have hlead : leadsList ('\n' :: nl3) ('\n' :: tidyGo rest 0) = false := by
          have : leadsList ('\n' :: nl3) ('\n' :: tidyGo rest 0)
              = leadsList nl3 (tidyGo rest 0) := by
            simp [leadsList]
          rw [this]
          by_contra hcon
          have h3 := leadsList_replicate_nl 3 (tidyGo rest 0)
            (eq_true_of_ne_false hcon)
          simp only [nl3] at h3
          omega
        simp only [occursIn, hlead, Bool.false_or]
        exact ihocc
      · cases hx : TrimS line with
        | nil => exact absurd hx ht
        | cons c cs =>
          have hc : c ≠ '\n' := by
            have := TrimS_head line c cs hx
            intro hcc
            rw [hcc] at this
            simp [isSpaceC] at this
          rw [List.cons_append, leadRunNL_cons_ne c _ hc]
          omega

/-- C6 (amended): the final output can contain runs of three newlines (see the
counterexample), but the line-tidying stage never emits four or more
consecutive newlines — at most two blank lines survive between non-blank
lines; the later substring repairs are what can lengthen runs further. -/
theorem c6_tidy_no_four_newlines (s : List Char) :
    occursIn nl4 (TidyAllLines s) = false := by
  unfold TidyAllLines
  have h := tidyGo_nl_bound (Explode '\n' s) 0 (explode_noNL s)
  by_contra hcon
  have := occursIn_dropLast nl4 (tidyGo (Explode '\n' s) 0)
    (eq_true_of_ne_false hcon)
  rw [h.1] at this
  cases this

/-! ### Lemmas relating `tidyGo` to its kept lines -/

theorem joinAll_ne_nil (t : List Char) (rest : List (List Char)) :
    joinAll (t :: rest) ≠ [] := by
  simp [joinAll]

theorem dropLast_joinAll : ∀ ns : List (List Char), (joinAll ns).dropLast = interNL ns := by
  intro ns
  induction ns with
  | nil => rfl
  | cons t rest ih =>
    cases rest with
    | nil =>
      show (t ++ ['\n']).dropLast = interNL [t]
      rw [List.dropLast_concat]
      rfl
    | cons u rest2 =>
      show (t ++ '\n' :: joinAll (u :: rest2)).dropLast = t ++ '\n' :: interNL (u :: rest2)
      rw [List.dropLast_append_of_ne_nil t (List.cons_ne_nil _ _)]
      congr 1
      cases hj : joinAll (u :: rest2) with
      | nil => exact absurd hj (joinAll_ne_nil u rest2)
      | cons x xs =>
        rw [List.dropLast_cons₂, ← hj, ih]

theorem tidyGo_eq_join_norm (ls : List (List Char)) :
    ∀ k : Nat, tidyGo ls k = joinAll (normGo ls k) := by
  induction ls with
  | nil => intro k; rfl
  | cons line rest ih =>
    intro k
    by_cases ht : TrimS line = []
    · by_cases hk : k < 2
      · simp [tidyGo, normGo, joinAll, ht, hk, ih (k + 1)]
      · simp [tidyGo, normGo, ht, hk, ih k]
    · simp [tidyGo, normGo, joinAll, ht, ih 0]

theorem TrimS_nil : TrimS ([] : List Char) = [] := rfl

theorem normGo_self (ls : List (List Char)) :
    ∀ k : Nat, normGo (normGo ls k) k = normGo ls k := by
  induction ls with
  | nil => intro k; rfl
  | cons line rest ih =>
    intro k
    by_cases ht : TrimS line = []
    · by_cases hk : k < 2
      · have heq : normGo (line :: rest) k = [] :: normGo rest (k + 1) := by
          simp [normGo, ht, hk]
        rw [heq]
        have : normGo ([] :: normGo rest (k + 1)) k
            = [] :: normGo (normGo rest (k + 1)) (k + 1) := by
          simp [normGo, TrimS_nil, hk]
        rw [this, ih (k + 1)]
      · have heq : normGo (line :: rest) k = normGo rest k := by
          simp [normGo, ht, hk]
        rw [heq, ih k]
    · have heq : normGo (line :: rest) k = TrimS line :: normGo rest 0 := by
        simp [normGo, ht]
      rw [heq]
      have hti : TrimS (TrimS line) = TrimS line := TrimS_idem line
      have : normGo (TrimS line :: normGo rest 0) k
          = TrimS line :: normGo (normGo rest 0) 0 := by
        simp [normGo, hti, ht]
      rw [this, ih 0]

theorem normGo_noNL (ls : List (List Char)) :
    ∀ k : Nat, (∀ l ∈ ls, '\n' ∉ l) → ∀ t ∈ normGo ls k, '\n' ∉ t := by
  induction ls with
  | nil => intro k _ t ht; cases ht
  | cons line rest ih =>
    intro k hNL t ht
    have hrest : ∀ l ∈ rest, '\n' ∉ l := fun l hl => hNL l (List.mem_cons_of_mem line hl)
    by_cases hb : TrimS line = []
    · by_cases hk : k < 2
      · rw [show normGo (line :: rest) k = [] :: normGo rest (k + 1) by
          simp [normGo, hb, hk]] at ht
        rcases List.mem_cons.mp ht with h | h
        · subst h; simp
        · exact ih (k + 1) hrest t h
      · rw [show normGo (line :: rest) k = normGo rest k by simp [normGo, hb, hk]] at ht
        exact ih k hrest t ht
    · rw [show normGo (line :: rest) k = TrimS line :: normGo rest 0 by
        simp [normGo, hb]] at ht
      rcases List.mem_cons.mp ht with h | h
      · subst h
        exact fun hm => hNL line (List.mem_cons_self line rest) (mem_TrimS '\n' line hm)
      · exact ih 0 hrest t h

theorem explodeAux_no_delim (t : List Char) :
    ∀ tok : List Char, '\n' ∉ t → explodeAux '\n' t tok = [tok.reverse ++ t] := by
  induction t with
  | nil => intro tok _; simp [explodeAux]
  | cons c cs ih =>
    intro tok h
    have hc : ¬ c = '\n' := fun hcc => h (hcc ▸ List.mem_cons_self c cs)
    have hcs : '\n' ∉ cs := fun hm => h (List.mem_cons_of_mem c hm)
    simp only [explodeAux, if_neg hc]
    rw [ih (c :: tok) hcs]
    simp

theorem explodeAux_split (t : List Char) :
    ∀ (rest tok : List Char), '\n' ∉ t → rest ≠ [] →
      explodeAux '\n' (t ++ '\n' :: rest) tok
        = (tok.reverse ++ t) :: explodeAux '\n' rest [] := by
  induction t with
  | nil =>
    intro rest tok _ hrest
    cases rest with
    | nil => exact absurd rfl hrest
    | cons d ds => simp [explodeAux]
  | cons c cs ih =>
    intro rest tok h hrest
    have hc : ¬ c = '\n' := fun hcc => h (hcc ▸ List.mem_cons_self c cs)
    have hcs : '\n' ∉ cs := fun hm => h (List.mem_cons_of_mem c hm)
    simp only [List.cons_append, explodeAux, if_neg hc, List.append_eq]
    rw [ih rest (c :: tok) hcs hrest]
    simp

theorem explode_nonnil (l : List Char) (h : l ≠ []) :
    Explode '\n' l = explodeAux '\n' l [] := by
  cases l with
  | nil => exact absurd rfl h
  | cons c cs => rfl

theorem explode_interNL : ∀ ns : List (List Char), (∀ t ∈ ns, '\n' ∉ t) →
    ns.getLast? ≠ some [] → ns ≠ [] → Explode '\n' (interNL ns) = ns := by
  intro ns
  induction ns with
  | nil => intro _ _ h; exact absurd rfl h
  | cons t rest ih =>
    intro hNL hlast _
    have hts : '\n' ∉ t := hNL t (List.mem_cons_self t rest)
    cases rest with
    | nil =>
      have htne : t ≠ [] := by
        intro hteq
        exact hlast (by rw [hteq]; rfl)
      show Explode '\n' t = [t]
      rw [explode_nonnil t htne, explodeAux_no_delim t [] hts]
      simp
    | cons u rest2 =>
      have hrestNL : ∀ x ∈ u :: rest2, '\n' ∉ x :=
        fun x hx => hNL x (List.mem_cons_of_mem t hx)
      have hlast2 : (u :: rest2).getLast? ≠ some [] := by
        rwa [List.getLast?_cons_cons] at hlast
      have hXne : interNL (u :: rest2) ≠ [] := by
        cases rest2 with
        | nil =>
          have hune : u ≠ [] := by
            intro hueq
            apply hlast2
            rw [hueq]
            rfl
          simpa [interNL] using hune
        | cons v r3 => simp [interNL]
      show Explode '\n' (t ++ '\n' :: interNL (u :: rest2)) = t :: u :: rest2
      rw [explode_nonnil _ (by simp), explodeAux_split t _ [] hts hXne,
          ← explode_nonnil _ hXne, ih hrestNL hlast2 (List.cons_ne_nil u rest2)]
      simp

theorem interNL_last_blank : ∀ ns : List (List Char), 2 ≤ ns.length →
    ns.getLast? = some [] → (interNL ns).getLast? = some '\n' := by
  intro ns
  induction ns with
  | nil => intro h _; cases h
  | cons t rest ih =>
    intro hlen hlast
    cases rest with
    | nil => simp at hlen
    | cons u rest2 =>
      cases rest2 with
      | nil =>
        have hu : u = [] := by
          rw [List.getLast?_cons_cons] at hlast
          simpa using hlast
        show (t ++ '\n' :: interNL [u]).getLast? = some '\n'
        rw [hu]
        show (t ++ ['\n']).getLast? = some '\n'
        rw [List.getLast?_append_of_ne_nil t (List.cons_ne_nil _ _)]
        rfl
      | cons v r3 =>
        have hIH : (interNL (u :: v :: r3)).getLast? = some '\n' := by
          apply ih
          · simp
          · rwa [List.getLast?_cons_cons] at hlast
        have hXne : interNL (u :: v :: r3) ≠ [] := by
          intro hx
          rw [hx] at hIH
          cases hIH
        show (t ++ '\n' :: interNL (u :: v :: r3)).getLast? = some '\n'
        rw [List.getLast?_append_of_ne_nil t (List.cons_ne_nil _ _)]
        cases hX : interNL (u :: v :: r3) with
        | nil => exact absurd hX hXne
        | cons x xs =>
          rw [List.getLast?_cons_cons, ← hX]
          exact hIH

/-- C7 (amended): the full normalizer is not idempotent (see the
counterexample), but its line-tidying stage is idempotent on every input whose
tidied result does not end in a newline (i.e. whose trailing blank lines were
already consumed); trailing blank lines and overlapping substring repairs are
what a second pass can still change. -/
theorem c7_tidy_idempotent (s : List Char)
    (h : (TidyAllLines s).getLast? ≠ some '\n') :
    TidyAllLines (TidyAllLines s) = TidyAllLines s := by
  have hT : TidyAllLines s = interNL (normGo (Explode '\n' s) 0) := by
    unfold TidyAllLines
    rw [tidyGo_eq_join_norm, dropLast_joinAll]
  set ns := normGo (Explode '\n' s) 0 with hns
  have hnsNL : ∀ t ∈ ns, '\n' ∉ t :=
    normGo_noNL (Explode '\n' s) 0 (explode_noNL s)
  rw [hT] at h ⊢
  by_cases hnil : ns = []
  · rw [hnil]
    rfl
  by_cases hblank : ns.getLast? = some []
  · by_cases hlen : 2 ≤ ns.length
    · exact absurd (interNL_last_blank ns hlen hblank) h
    · have hone : ns = [[]] := by
        cases hc : ns with
        | nil => exact absurd hc hnil
        | cons x xs =>
          cases xs with
          | nil =>
            rw [hc] at hblank
            have : x = [] := by simpa using hblank
            rw [this]
          | cons y ys =>
            rw [hc] at hlen
            simp at hlen
      rw [hone]
      rfl
  · have hx : Explode '\n' (interNL ns) = ns := explode_interNL ns hnsNL hblank hnil
    have hself : normGo ns 0 = ns := by
      rw [hns]
      exact normGo_self (Explode '\n' s) 0
    unfold TidyAllLines
    rw [hx, tidyGo_eq_join_norm, hself, dropLast_joinAll]

/-- Witness for C7 on a text whose tidied form ends in a non-blank line. -/
theorem c7_tidy_idempotent_witness :
    TidyAllLines (TidyAllLines "x\n\ny".toList) = TidyAllLines "x\n\ny".toList :=
  c7_tidy_idempotent "x\n\ny".toList (by decide)

end Html2md
